import Mathlib

/-!
Verification of the tracekit metrics pipeline (instrument registry, buffer,
OTLP exporter, attribute normalization) against its specification.

The Python sources are shallowly embedded: floats are modelled as rationals
(the checked properties only use exact arithmetic and comparisons with 0),
dictionaries as association lists in insertion order, and the stateful
buffer as explicit state passing.  The lock-protected critical sections are
sequentialized; emitted/exported data is returned explicitly.
-/

namespace Tracekit

/-- Embeds `MetricDataPoint` from metrics_buffer.py: name, tags (dict of
string to string, kept in insertion order), value, timestamp in seconds,
and metric_type (the strings "counter", "gauge" or "histogram"). -/
structure MetricDataPoint where
  name : String
  tags : List (String × String)
  value : ℚ
  timestamp : ℚ
  metric_type : String
deriving DecidableEq

/-- Lexicographic (code-point) `≤` on character lists: the order Python's
`sorted` uses on strings. -/
def charListLe : List Char → List Char → Bool
  | [], _ => true
  | _ :: _, [] => false
  | a :: as, b :: bs =>
    if a < b then true
    else if b < a then false
    else charListLe as bs

/-- The ascending string order used by Python's `sorted`: code-point
lexicographic comparison of the character sequences. -/
def pyLe (s₁ s₂ : String) : Prop :=
  charListLe s₁.data s₂.data = true

instance : DecidableRel pyLe :=
  fun s₁ s₂ => inferInstanceAs (Decidable (charListLe s₁.data s₂.data = true))

lemma charListLe_total : ∀ as bs, charListLe as bs = true ∨ charListLe bs as = true := by
  intro as
  induction as with
  | nil => intro bs; left; rfl
  | cons a as ih =>
    intro bs
    cases bs with
    | nil => right; rfl
    | cons b bs =>
      simp only [charListLe]
      rcases lt_trichotomy a b with h | h | h
      · left; simp [h]
      · subst h
        rcases ih bs with hc | hc
        · left; simp [lt_irrefl, hc]
        · right; simp [lt_irrefl, hc]
      · right; simp [h]

lemma charListLe_trans : ∀ as bs cs, charListLe as bs = true → charListLe bs cs = true →
    charListLe as cs = true := by
  intro as
  induction as with
  | nil => intro bs cs _ _; rfl
  | cons a as ih =>
    intro bs cs hab hbc
    cases bs with
    | nil => simp [charListLe] at hab
    | cons b bs =>
      cases cs with
      | nil => simp [charListLe] at hbc
      | cons c cs =>
        simp only [charListLe] at hab hbc ⊢
        rcases lt_trichotomy a b with h1 | h1 | h1
        · rcases lt_trichotomy b c with h2 | h2 | h2
          · simp [lt_trans h1 h2]
          · subst h2; simp [h1]
          · simp [lt_asymm h2, h2] at hbc
        · subst h1
          simp only [lt_irrefl, if_false] at hab
          rcases lt_trichotomy a c with h2 | h2 | h2
          · simp [h2]
          · subst h2
            simp only [lt_irrefl, if_false] at hbc ⊢
            exact ih _ _ hab hbc
          · simp [lt_asymm h2, h2] at hbc
        · simp [lt_asymm h1, h1] at hab

lemma charListLe_antisymm : ∀ as bs, charListLe as bs = true → charListLe bs as = true →
    as = bs := by
  intro as
  induction as with
  | nil =>
    intro bs _ h2
    cases bs with
    | nil => rfl
    | cons b bs => simp [charListLe] at h2
  | cons a as ih =>
    intro bs h1 h2
    cases bs with
    | nil => simp [charListLe] at h1
    | cons b bs =>
      simp only [charListLe] at h1 h2
      rcases lt_trichotomy a b with h | h | h
      · simp [lt_asymm h, h] at h2
      · subst h
        simp only [lt_irrefl, if_false] at h1 h2
        rw [ih bs h1 h2]
      · simp [lt_asymm h, h] at h1

instance : IsTotal String pyLe :=
  ⟨fun a b => charListLe_total a.data b.data⟩

instance : IsTrans String pyLe :=
  ⟨fun a b c => charListLe_trans a.data b.data c.data⟩

instance : IsAntisymm String pyLe :=
  ⟨fun a b h1 h2 => String.ext (charListLe_antisymm a.data b.data h1 h2)⟩

/-- Embeds `MetricsRegistry._metric_key` from metrics.py: the name alone
for an empty tag dict, else `name{...}` where the braces enclose the
comma-joined list of the "k=v" strings sorted with Python's `sorted`
(lexicographic string order). -/
def metric_key (name : String) (tags : List (String × String)) : String :=
  if tags.isEmpty then
    name
  else
    let tag_pairs := (tags.map (fun kv => kv.1 ++ "=" ++ kv.2)).insertionSort pyLe
    name ++ "\x7b" ++ String.intercalate "," tag_pairs ++ "\x7d"

/-- Second definition, following the spec's words for the instrument key
(claim C6): tag *pairs* sorted lexicographically **by key**, then joined as
"k=v".  To be compared with `metric_key`, which the source derives from the
joined strings instead. -/
def metric_key_by_key (name : String) (tags : List (String × String)) : String :=
  if tags.isEmpty then
    name
  else
    let sorted_pairs := tags.insertionSort (fun a b => pyLe a.1 b.1)
    name ++ "\x7b" ++ String.intercalate "," (sorted_pairs.map (fun kv => kv.1 ++ "=" ++ kv.2)) ++ "\x7d"

lemma insertionSort_eq_of_perm {l₁ l₂ : List String} (h : l₁.Perm l₂) :
    l₁.insertionSort pyLe = l₂.insertionSort pyLe := by
  have hp : (l₁.insertionSort pyLe).Perm (l₂.insertionSort pyLe) :=
    (List.perm_insertionSort _ l₁).trans (h.trans (List.perm_insertionSort _ l₂).symm)
  have hs₁ : (l₁.insertionSort pyLe).Sorted pyLe := List.sorted_insertionSort _ l₁
  have hs₂ : (l₂.insertionSort pyLe).Sorted pyLe := List.sorted_insertionSort _ l₂
  exact List.eq_of_perm_of_sorted hp hs₁ hs₂

/-- Permutation invariance of the instrument key (shared helper). -/
lemma metric_key_perm (name : String) {t₁ t₂ : List (String × String)}
    (h : t₁.Perm t₂) : metric_key name t₁ = metric_key name t₂ := by
  by_cases hnil : t₁ = []
  · subst hnil
    rw [h.symm.eq_nil]
  · have hnil₂ : t₂ ≠ [] := fun he => hnil (List.Perm.eq_nil (he ▸ h))
    have hmap : (t₁.map (fun kv => kv.1 ++ "=" ++ kv.2)).Perm
        (t₂.map (fun kv => kv.1 ++ "=" ++ kv.2)) := h.map _
    unfold metric_key
    rw [if_neg (by simpa using hnil), if_neg (by simpa using hnil₂),
      insertionSort_eq_of_perm hmap]

/-! ## Metrics buffer (metrics_buffer.py)

`MetricsBuffer` holds pending points, a shutdown flag and `max_size`
(constructed as 100).  The exporter is passed as a function returning
`Except String Unit`: `Except.error` embeds `export` raising an exception.
Each operation returns, besides the new state, the list of batches handed
to the exporter (the observable export attempts) and the list of logged
error messages; returning those instead of raising embeds the `try/except`
at the flush boundary. -/

/-- Buffer state: `data`, `_shutdown` flag, `max_size` (metrics_buffer.py). -/
structure MetricsBuffer where
  data : List MetricDataPoint
  shutdownFlag : Bool
  max_size : Nat
deriving DecidableEq

/-- A fresh buffer as built by `MetricsBuffer.__init__`: empty data, not
shut down, `max_size = 100`. -/
def MetricsBuffer.init : MetricsBuffer := ⟨[], false, 100⟩

/-- Result of a buffer operation: new state, batches handed to
`exporter.export` (in order of the calls), and logged error messages. -/
structure BufferResult where
  state : MetricsBuffer
  exported : List (List MetricDataPoint)
  logs : List String
deriving DecidableEq

/-- Embeds `MetricsBuffer._flush`: if `data` is empty, return; otherwise
swap the pending list for an empty one and pass it to the exporter,
catching any exception and logging it. -/
def MetricsBuffer.flush (exporter : List MetricDataPoint → Except String Unit)
    (b : MetricsBuffer) : BufferResult :=
  if b.data.isEmpty then
    ⟨b, [], []⟩
  else
    match exporter b.data with
    | Except.ok _ => ⟨{ b with data := [] }, [b.data], []⟩
    | Except.error e => ⟨{ b with data := [] }, [b.data], ["Failed to export metrics: " ++ e]⟩

/-- Embeds `MetricsBuffer.add`: dropped when shut down; otherwise the point
is appended, and if the length reaches `max_size` a synchronous flush runs. -/
def MetricsBuffer.add (exporter : List MetricDataPoint → Except String Unit)
    (b : MetricsBuffer) (data_point : MetricDataPoint) : BufferResult :=
  if b.shutdownFlag then
    ⟨b, [], []⟩
  else
    let b' := { b with data := b.data ++ [data_point] }
    let should_flush := b.max_size ≤ b'.data.length
    if should_flush then MetricsBuffer.flush exporter b' else ⟨b', [], []⟩

/-- Embeds `MetricsBuffer.shutdown`: set the shutdown flag (the worker join
is a no-op in the sequential model), then one final synchronous flush. -/
def MetricsBuffer.shutdown (exporter : List MetricDataPoint → Except String Unit)
    (b : MetricsBuffer) : BufferResult :=
  MetricsBuffer.flush exporter { b with shutdownFlag := true }

/-- Driver: a sequence of `add` calls, accumulating export attempts and logs. -/
def MetricsBuffer.addAll (exporter : List MetricDataPoint → Except String Unit)
    (b : MetricsBuffer) : List MetricDataPoint → BufferResult
  | [] => ⟨b, [], []⟩
  | p :: ps =>
    let r := MetricsBuffer.add exporter b p
    let rest := MetricsBuffer.addAll exporter r.state ps
    ⟨rest.state, r.exported ++ rest.exported, r.logs ++ rest.logs⟩

/-! ## Metric instruments (metrics.py)

Each instrument write is embedded as the list of data points it hands to
`buffer.add` (zero or one); `now` stands for `time.time()`. -/

/-- The per-counter state of `CounterImpl`: name and tags (the buffer
reference is passed to the operations explicitly). -/
structure CounterImpl where
  name : String
  tags : List (String × String)
deriving DecidableEq

/-- Embeds `CounterImpl.add`: negative values are dropped (counters are
monotonic), otherwise one counter point is emitted to the buffer. -/
def CounterImpl.add (c : CounterImpl) (now : ℚ) (value : ℚ) : List MetricDataPoint :=
  if value < 0 then
    []
  else
    [⟨c.name, c.tags, value, now, "counter"⟩]

/-- Embeds `CounterImpl.inc`: `add(1.0)`. -/
def CounterImpl.inc (c : CounterImpl) (now : ℚ) : List MetricDataPoint :=
  c.add now 1

/-- The per-gauge state of `GaugeImpl`: name, tags and the `_value`
accumulator. -/
structure GaugeImpl where
  name : String
  tags : List (String × String)
  _value : ℚ
deriving DecidableEq

/-- Embeds `GaugeImpl.__init__`: the accumulator starts at `0.0`. -/
def GaugeImpl.init (name : String) (tags : List (String × String)) : GaugeImpl :=
  ⟨name, tags, 0⟩

/-- Embeds `GaugeImpl.set`: store the value and emit a gauge point with it. -/
def GaugeImpl.set (g : GaugeImpl) (now value : ℚ) : GaugeImpl × MetricDataPoint :=
  ({ g with _value := value }, ⟨g.name, g.tags, value, now, "gauge"⟩)

/-- Embeds `GaugeImpl.inc`: add `1.0` to the accumulator and emit a gauge
point carrying the post-update value. -/
def GaugeImpl.inc (g : GaugeImpl) (now : ℚ) : GaugeImpl × MetricDataPoint :=
  let value := g._value + 1
  ({ g with _value := value }, ⟨g.name, g.tags, value, now, "gauge"⟩)

/-- Embeds `GaugeImpl.dec`: subtract `1.0` from the accumulator and emit a
gauge point carrying the post-update value. -/
def GaugeImpl.dec (g : GaugeImpl) (now : ℚ) : GaugeImpl × MetricDataPoint :=
  let value := g._value - 1
  ({ g with _value := value }, ⟨g.name, g.tags, value, now, "gauge"⟩)

/-- The per-histogram state of `HistogramImpl`: name and tags. -/
structure HistogramImpl where
  name : String
  tags : List (String × String)
deriving DecidableEq

/-- Embeds `HistogramImpl.record`: emit one histogram point unconditionally. -/
def HistogramImpl.record (h : HistogramImpl) (now value : ℚ) : List MetricDataPoint :=
  [⟨h.name, h.tags, value, now, "histogram"⟩]

/-! ## Metrics registry (metrics.py)

One assoc-list map per instrument kind, keyed by `metric_key`, in
insertion order (Python dict).  The double-checked locking collapses to a
single lookup in the sequential model. -/

/-- The three instrument maps of `MetricsRegistry`. -/
structure MetricsRegistry where
  counters : List (String × CounterImpl)
  gauges : List (String × GaugeImpl)
  histograms : List (String × HistogramImpl)
deriving DecidableEq

/-- Embeds `MetricsRegistry.counter`: look the key up; on a miss construct
a `CounterImpl` (with a defensive copy of `tags`) and store it. -/
def MetricsRegistry.counter (r : MetricsRegistry) (name : String)
    (tags : List (String × String)) : CounterImpl × MetricsRegistry :=
  let key := metric_key name tags
  match List.lookup key r.counters with
  | some c => (c, r)
  | none =>
    let c : CounterImpl := ⟨name, tags⟩
    (c, { r with counters := r.counters ++ [(key, c)] })

/-- Embeds `MetricsRegistry.gauge` (the constructed `GaugeImpl` starts with
accumulator 0). -/
def MetricsRegistry.gauge (r : MetricsRegistry) (name : String)
    (tags : List (String × String)) : GaugeImpl × MetricsRegistry :=
  let key := metric_key name tags
  match List.lookup key r.gauges with
  | some g => (g, r)
  | none =>
    let g : GaugeImpl := GaugeImpl.init name tags
    (g, { r with gauges := r.gauges ++ [(key, g)] })

/-- Embeds `MetricsRegistry.histogram`. -/
def MetricsRegistry.histogram (r : MetricsRegistry) (name : String)
    (tags : List (String × String)) : HistogramImpl × MetricsRegistry :=
  let key := metric_key name tags
  match List.lookup key r.histograms with
  | some h => (h, r)
  | none =>
    let h : HistogramImpl := ⟨name, tags⟩
    (h, { r with histograms := r.histograms ++ [(key, h)] })

/-! ## Metrics exporter (metrics_exporter.py)

`_to_otlp` groups the points by the string `name ++ ":" ++ metric_type`
(a Python dict, insertion-ordered), then recovers name and type from each
group key with `key.split(':', 1)` — a split at the *first* colon. -/

/-- One `{key, value: {stringValue}}` attribute of an OTLP data point. -/
structure OtlpAttribute where
  key : String
  stringValue : String
deriving DecidableEq

/-- One OTLP data point: attributes from the tag map, `timeUnixNano` as a
decimal string, `asDouble`. -/
structure OtlpDataPoint where
  attributes : List OtlpAttribute
  timeUnixNano : String
  asDouble : ℚ
deriving DecidableEq

/-- The aggregation part of an OTLP metric: either a `sum` (with
`aggregationTemporality` and `isMonotonic`) or a `gauge`. -/
inductive OtlpAgg where
  | sum (dataPoints : List OtlpDataPoint) (aggregationTemporality : Int) (isMonotonic : Bool)
  | gauge (dataPoints : List OtlpDataPoint)
deriving DecidableEq

/-- One entry of the `metrics` array. -/
structure OtlpMetric where
  name : String
  agg : OtlpAgg
deriving DecidableEq

/-- The OTLP payload: one resource (identified by `service.name`), one
scope (named "tracekit"), and the metrics array. -/
structure OtlpPayload where
  serviceName : String
  scopeName : String
  metrics : List OtlpMetric
deriving DecidableEq

/-- Python `int()` on a rational: truncation toward zero. -/
def truncToInt (q : ℚ) : Int :=
  if 0 ≤ q then q.floor else -(-q).floor

/-- The per-point conversion inside `_to_otlp`: tags to
`{key, value: {stringValue}}` attributes, `str(int(timestamp * 1e9))`, and
the raw value as `asDouble`. -/
def toOtlpDataPoint (dp : MetricDataPoint) : OtlpDataPoint :=
  ⟨dp.tags.map (fun kv => ⟨kv.1, kv.2⟩),
    toString (truncToInt (dp.timestamp * 1000000000)),
    dp.value⟩

/-- Append `p` to the group of key `k`, creating the group at the end when
absent: the behaviour of `grouped.setdefault`-style insertion into a
Python dict of lists. -/
def addToGroups {κ α : Type} [DecidableEq κ] (k : κ) (p : α) :
    List (κ × List α) → List (κ × List α)
  | [] => [(k, [p])]
  | (k', l) :: rest =>
    if k' = k then (k', l ++ [p]) :: rest else (k', l) :: addToGroups k p rest

/-- Group a list by a key function, preserving first-occurrence order of
keys and insertion order inside each group (Python dict of lists). -/
def groupBy {κ α : Type} [DecidableEq κ] (f : α → κ) (l : List α) :
    List (κ × List α) :=
  l.foldl (fun acc p => addToGroups (f p) p acc) []

/-- Python `s.split(':', 1)` on the character list: the part before the
first colon and the part after it.  The exporter only applies it to group
keys, which always contain a colon; a colon-free input maps to
`(s, [])`. -/
def splitColon1 : List Char → List Char × List Char
  | [] => ([], [])
  | c :: cs =>
    if c = ':' then
      ([], cs)
    else
      let r := splitColon1 cs
      (c :: r.1, r.2)

/-- `key.split(':', 1)` unpacked into `(name, metric_type)`. -/
def keySplit (s : String) : String × String :=
  let r := splitColon1 s.data
  (String.mk r.1, String.mk r.2)

/-- Embeds `MetricsExporter._to_otlp`: group by `f"{name}:{metric_type}"`,
split each group key back at its first colon, encode `counter` groups as a
`sum` with temporality 2 (DELTA) and `isMonotonic = true`, everything else
as a `gauge`, and wrap in one resource and one scope. -/
def MetricsExporter.to_otlp (service_name : String)
    (data_points : List MetricDataPoint) : OtlpPayload :=
  let grouped := groupBy (fun dp => dp.name ++ ":" ++ dp.metric_type) data_points
  let metrics := grouped.map (fun g =>
    let nt := keySplit g.1
    let otlp_data_points := g.2.map toOtlpDataPoint
    if nt.2 = "counter" then
      ⟨nt.1, OtlpAgg.sum otlp_data_points 2 true⟩
    else
      ⟨nt.1, OtlpAgg.gauge otlp_data_points⟩)
  ⟨service_name, "tracekit", metrics⟩

/-- The claim's per-group metric construction, keyed by the actual
`(name, metric_type)` pair: used to state what `to_otlp` produces. -/
def metricOfGroup (nt : String × String) (dps : List MetricDataPoint) : OtlpMetric :=
  if nt.2 = "counter" then
    ⟨nt.1, OtlpAgg.sum (dps.map toOtlpDataPoint) 2 true⟩
  else
    ⟨nt.1, OtlpAgg.gauge (dps.map toOtlpDataPoint)⟩

/-! ## Attribute normalization (client.py)

`TracekitClient._normalize_attributes` dispatches on the runtime type of
each attribute value: `str`/`int`/`float`/`bool` pass through, `list` and
`tuple` are converted element-wise with `str`, everything else is passed
to `str` whole.  `PyValue` embeds that value universe; the `other`
constructor carries the `str()` rendering of a value of any further type. -/

/-- A Python attribute value as seen by `_normalize_attributes`. -/
inductive PyValue where
  | str (s : String)
  | int (n : Int)
  | float (q : ℚ)
  | bool (b : Bool)
  | list (elems : List PyValue)
  | tuple (elems : List PyValue)
  | other (repr : String)

mutual

/-- Python `str()` on a `PyValue`, structurally.  (For `list`/`tuple` the
rendering of the elements uses their `str` rather than `repr`; none of the
verified properties depend on the rendered text.) -/
def pyStr : PyValue → String
  | PyValue.str s => s
  | PyValue.int n => toString n
  | PyValue.float q => toString q
  | PyValue.bool b => if b then "True" else "False"
  | PyValue.list es => "[" ++ String.intercalate ", " (pyStrList es) ++ "]"
  | PyValue.tuple es => "(" ++ String.intercalate ", " (pyStrList es) ++ ")"
  | PyValue.other r => r

/-- `[str(v) for v in value]`. -/
def pyStrList : List PyValue → List String
  | [] => []
  | v :: vs => pyStr v :: pyStrList vs

end

/-- An OpenTelemetry-compatible attribute value after normalization. -/
inductive AttrValue where
  | str (s : String)
  | int (n : Int)
  | float (q : ℚ)
  | bool (b : Bool)
  | strList (elems : List String)
deriving DecidableEq

/-- The per-value branch of `_normalize_attributes`:
`isinstance(value, (str, int, float, bool))` passes through,
`isinstance(value, (list, tuple))` maps `str` over the elements, the
fallback converts the whole value with `str`. -/
def normalizeValue : PyValue → AttrValue
  | PyValue.str s => AttrValue.str s
  | PyValue.int n => AttrValue.int n
  | PyValue.float q => AttrValue.float q
  | PyValue.bool b => AttrValue.bool b
  | PyValue.list es => AttrValue.strList (pyStrList es)
  | PyValue.tuple es => AttrValue.strList (pyStrList es)
  | PyValue.other r => AttrValue.str (pyStr (PyValue.other r))

/-- Embeds `TracekitClient._normalize_attributes`: normalize each entry of
the attribute dict, keeping the keys. -/
def TracekitClient.normalize_attributes (attributes : List (String × PyValue)) :
    List (String × AttrValue) :=
  attributes.map (fun kv => (kv.1, normalizeValue kv.2))

/-- The spec's description of normalization of a single value (claim C9):
primitive scalars unchanged, sequences element-wise to strings, anything
else to its string representation. -/
inductive NormalizesTo : PyValue → AttrValue → Prop where
  | str (s : String) : NormalizesTo (PyValue.str s) (AttrValue.str s)
  | int (n : Int) : NormalizesTo (PyValue.int n) (AttrValue.int n)
  | float (q : ℚ) : NormalizesTo (PyValue.float q) (AttrValue.float q)
  | bool (b : Bool) : NormalizesTo (PyValue.bool b) (AttrValue.bool b)
  | list (es : List PyValue) :
      NormalizesTo (PyValue.list es) (AttrValue.strList (es.map pyStr))
  | tuple (es : List PyValue) :
      NormalizesTo (PyValue.tuple es) (AttrValue.strList (es.map pyStr))
  | other (r : String) :
      NormalizesTo (PyValue.other r) (AttrValue.str (pyStr (PyValue.other r)))

/-! ## Theorems -/

lemma pyStrList_eq_map (es : List PyValue) : pyStrList es = es.map pyStr := by
  induction es with
  | nil => rfl
  | cons v vs ih => simp [pyStrList, ih]

lemma normalizeValue_spec (v : PyValue) : NormalizesTo v (normalizeValue v) := by
  cases v with
  | str s => exact NormalizesTo.str s
  | int n => exact NormalizesTo.int n
  | float q => exact NormalizesTo.float q
  | bool b => exact NormalizesTo.bool b
  | list es =>
    have : normalizeValue (PyValue.list es) = AttrValue.strList (es.map pyStr) := by
      simp [normalizeValue, pyStrList_eq_map]
    rw [this]
    exact NormalizesTo.list es
  | tuple es =>
    have : normalizeValue (PyValue.tuple es) = AttrValue.strList (es.map pyStr) := by
      simp [normalizeValue, pyStrList_eq_map]
    rw [this]
    exact NormalizesTo.tuple es
  | other r => exact NormalizesTo.other r

/-- C10: a fresh `GaugeImpl` has accumulator `0.0`, so its first `inc`
emits a gauge data point of value `1.0` and its first `dec` one of value
`-1.0`, without any prior `set`. -/
theorem gauge_accumulator_starts_at_zero (name : String)
    (tags : List (String × String)) (now now' : ℚ) :
    (GaugeImpl.init name tags)._value = 0 ∧
    (GaugeImpl.init name tags).inc now =
      (⟨name, tags, 1⟩, ⟨name, tags, 1, now, "gauge"⟩) ∧
    (GaugeImpl.init name tags).dec now' =
      (⟨name, tags, -1⟩, ⟨name, tags, -1, now', "gauge"⟩) := by
  refine ⟨rfl, ?_, ?_⟩ <;> simp [GaugeImpl.init, GaugeImpl.inc, GaugeImpl.dec]

/-- C4: `Counter.add` with a negative value emits nothing and leaves any
buffer unchanged; with a non-negative value it emits exactly one counter
point with that value; so `add(-5)` then `add(3)` records exactly one
point, of value 3. -/
theorem counter_add_negative_is_noop (c : CounterImpl) (now now' v : ℚ) :
    (v < 0 → c.add now v = [] ∧
      ∀ (exporter : List MetricDataPoint → Except String Unit) (b : MetricsBuffer),
        MetricsBuffer.addAll exporter b (c.add now v) = ⟨b, [], []⟩) ∧
    (0 ≤ v → c.add now v = [⟨c.name, c.tags, v, now, "counter"⟩]) ∧
    c.add now (-5) ++ c.add now' 3 = [⟨c.name, c.tags, 3, now', "counter"⟩] := by
  refine ⟨fun hneg => ?_, fun hpos => ?_, ?_⟩
  · have he : c.add now v = [] := by simp [CounterImpl.add, hneg]
    exact ⟨he, fun exporter b => by rw [he]; rfl⟩
  · simp [CounterImpl.add, not_lt.mpr hpos]
  · have h₁ : c.add now (-5) = [] := by norm_num [CounterImpl.add]
    have h₂ : c.add now' 3 = [⟨c.name, c.tags, 3, now', "counter"⟩] := by
      norm_num [CounterImpl.add]
    rw [h₁, h₂, List.nil_append]

theorem counter_add_negative_is_noop_witness :
    ((-5 : ℚ) < 0 ∧ CounterImpl.add ⟨"req", []⟩ 0 (-5) = []) ∧
    ((0 : ℚ) ≤ 3 ∧ CounterImpl.add ⟨"req", []⟩ 0 3 = [⟨"req", [], 3, 0, "counter"⟩]) :=
  ⟨⟨by norm_num, ((counter_add_negative_is_noop ⟨"req", []⟩ 0 0 (-5)).1 (by norm_num)).1⟩,
   ⟨by norm_num, (counter_add_negative_is_noop ⟨"req", []⟩ 0 0 3).2.1 (by norm_num)⟩⟩

/-- C9: normalization keeps exactly the keys of the input attribute dict,
and maps each value per the spec's case analysis: primitive scalars pass
through unchanged, sequences are converted element-wise to strings, and
any other value is converted to its string representation. -/
theorem normalize_attributes_spec (attributes : List (String × PyValue)) :
    (TracekitClient.normalize_attributes attributes).map Prod.fst =
      attributes.map Prod.fst ∧
    List.Forall₂ (fun a b => NormalizesTo a.2 b.2) attributes
      (TracekitClient.normalize_attributes attributes) := by
  induction attributes with
  | nil => exact ⟨rfl, List.Forall₂.nil⟩
  | cons kv rest ih =>
    refine ⟨?_, ?_⟩
    · simp [TracekitClient.normalize_attributes, ih.1]
    · exact List.Forall₂.cons (normalizeValue_spec kv.2) ih.2

/-- C6 counterexample: with tags `{a: x, a0: y}` the code key orders
`a0=y` before `a=x` (because `'0' < '='` in the joined strings), while
sorting the pairs by key puts `a` first; the code key therefore differs
from the claim's by-key ordering. -/
theorem metric_key_counterexample :
    metric_key "m" [("a", "x"), ("a0", "y")] = "m\x7ba0=y,a=x\x7d" ∧
    metric_key_by_key "m" [("a", "x"), ("a0", "y")] = "m\x7ba=x,a0=y\x7d" ∧
    metric_key "m" [("a", "x"), ("a0", "y")] ≠
      metric_key_by_key "m" [("a", "x"), ("a0", "y")] := by
  refine ⟨?_, ?_, ?_⟩ <;> decide

/-- C6 (amended): the instrument key is the name alone when the tag map is
empty, and otherwise `name{...}` where the braces enclose the comma-joined
`"k=v"` strings sorted lexicographically *as whole strings* (which departs
from by-key order when one key extends another with a character below
`'='`). -/
theorem metric_key_shape (name : String) (tags : List (String × String)) :
    (tags = [] → metric_key name tags = name) ∧
    (tags ≠ [] → ∃ l : List String,
      l.Perm (tags.map (fun kv => kv.1 ++ "=" ++ kv.2)) ∧
      l.Sorted pyLe ∧
      metric_key name tags = name ++ "\x7b" ++ String.intercalate "," l ++ "\x7d") := by
  constructor
  · intro h
    subst h
    rfl
  · intro h
    refine ⟨(tags.map fun kv => kv.1 ++ "=" ++ kv.2).insertionSort pyLe,
      List.perm_insertionSort _ _, List.sorted_insertionSort _ _, ?_⟩
    unfold metric_key
    rw [if_neg (by simp [h])]

theorem metric_key_shape_witness :
    (([] : List (String × String)) = [] ∧ metric_key "m" [] = "m") ∧
    (([("b", "2"), ("a", "1")] : List (String × String)) ≠ [] ∧
      ∃ l : List String,
        l.Perm ([("b", "2"), ("a", "1")].map (fun kv => kv.1 ++ "=" ++ kv.2)) ∧
        l.Sorted pyLe ∧
        metric_key "m" [("b", "2"), ("a", "1")] =
          "m" ++ "\x7b" ++ String.intercalate "," l ++ "\x7d") :=
  ⟨⟨rfl, (metric_key_shape "m" []).1 rfl⟩,
   ⟨by decide, (metric_key_shape "m" [("b", "2"), ("a", "1")]).2 (by decide)⟩⟩

/-- C7: the instrument key is invariant under permutation of the tag
pairs — any insertion order of the same tag set yields the same key. -/
theorem metric_key_permutation_invariant (name : String)
    (t₁ t₂ : List (String × String)) (h : t₁.Perm t₂) :
    metric_key name t₁ = metric_key name t₂ :=
  metric_key_perm name h

theorem metric_key_permutation_invariant_witness :
    ([("b", "2"), ("a", "1")] : List (String × String)).Perm
      [("a", "1"), ("b", "2")] ∧
    metric_key "m" [("b", "2"), ("a", "1")] = metric_key "m" [("a", "1"), ("b", "2")] :=
  ⟨by decide, metric_key_permutation_invariant "m" _ _ (by decide)⟩

lemma add_no_flush (exporter : List MetricDataPoint → Except String Unit)
    (b : MetricsBuffer) (p : MetricDataPoint) (hs : b.shutdownFlag = false)
    (hlen : b.data.length + 1 < b.max_size) :
    MetricsBuffer.add exporter b p = ⟨⟨b.data ++ [p], false, b.max_size⟩, [], []⟩ := by
  obtain ⟨data, sf, ms⟩ := b
  simp only at hs hlen
  subst hs
  unfold MetricsBuffer.add
  rw [if_neg (by simp)]
  rw [if_neg (by simp only [List.length_append, List.length_cons, List.length_nil]; omega)]

lemma flush_empty (exporter : List MetricDataPoint → Except String Unit)
    (b : MetricsBuffer) (h : b.data = []) :
    MetricsBuffer.flush exporter b = ⟨b, [], []⟩ := by
  unfold MetricsBuffer.flush
  rw [if_pos (by simp [h])]

lemma flush_nonempty (exporter : List MetricDataPoint → Except String Unit)
    (b : MetricsBuffer) (h : b.data ≠ []) :
    (MetricsBuffer.flush exporter b).state = ⟨[], b.shutdownFlag, b.max_size⟩ ∧
    (MetricsBuffer.flush exporter b).exported = [b.data] := by
  unfold MetricsBuffer.flush
  rw [if_neg (by simp [h])]
  cases hE : exporter b.data <;> exact ⟨rfl, rfl⟩

lemma addAll_below_threshold (exporter : List MetricDataPoint → Except String Unit) :
    ∀ (ps : List MetricDataPoint) (b : MetricsBuffer), b.shutdownFlag = false →
    b.data.length + ps.length < b.max_size →
    MetricsBuffer.addAll exporter b ps = ⟨⟨b.data ++ ps, false, b.max_size⟩, [], []⟩ := by
  intro ps
  induction ps with
  | nil =>
    intro b hs _
    obtain ⟨data, sf, ms⟩ := b
    simp only at hs
    subst hs
    simp [MetricsBuffer.addAll]
  | cons p ps ih =>
    intro b hs hlen
    have hadd : MetricsBuffer.add exporter b p = ⟨⟨b.data ++ [p], false, b.max_size⟩, [], []⟩ :=
      add_no_flush exporter b p hs (by simp at hlen; omega)
    have hrest := ih ⟨b.data ++ [p], false, b.max_size⟩ rfl
      (by simp only [List.length_append, List.length_cons, List.length_nil]; simp at hlen; omega)
    simp only [MetricsBuffer.addAll, hadd, hrest, List.nil_append, List.append_assoc,
      List.cons_append, List.singleton_append]

lemma addAll_append (exporter : List MetricDataPoint → Except String Unit)
    (l₁ l₂ : List MetricDataPoint) : ∀ b : MetricsBuffer,
    MetricsBuffer.addAll exporter b (l₁ ++ l₂) =
      ⟨(MetricsBuffer.addAll exporter (MetricsBuffer.addAll exporter b l₁).state l₂).state,
        (MetricsBuffer.addAll exporter b l₁).exported ++
          (MetricsBuffer.addAll exporter (MetricsBuffer.addAll exporter b l₁).state l₂).exported,
        (MetricsBuffer.addAll exporter b l₁).logs ++
          (MetricsBuffer.addAll exporter (MetricsBuffer.addAll exporter b l₁).state l₂).logs⟩ := by
  induction l₁ with
  | nil => intro b; simp [MetricsBuffer.addAll]
  | cons p ps ih =>
    intro b
    simp only [List.cons_append, MetricsBuffer.addAll, List.append_eq]
    rw [ih]
    simp [List.append_assoc]

lemma addAll_shutdown (exporter : List MetricDataPoint → Except String Unit)
    (b : MetricsBuffer) (hs : b.shutdownFlag = true) (ps : List MetricDataPoint) :
    MetricsBuffer.addAll exporter b ps = ⟨b, [], []⟩ := by
  induction ps with
  | nil => rfl
  | cons p ps ih =>
    have hadd : MetricsBuffer.add exporter b p = ⟨b, [], []⟩ := by
      unfold MetricsBuffer.add
      rw [if_pos hs]
    simp [MetricsBuffer.addAll, hadd, ih]

/-- C2: starting from a fresh buffer (`max_size = 100`), adding 99 points
triggers no export and leaves them buffered in order; adding the 100th
point triggers exactly one flush handing all 100 points to the exporter in
insertion order and empties the buffer; and a flush of an empty buffer
performs no export call. -/
theorem buffer_flushes_at_max_size
    (exporter : List MetricDataPoint → Except String Unit)
    (ps : List MetricDataPoint) (p : MetricDataPoint) (h99 : ps.length = 99) :
    MetricsBuffer.addAll exporter MetricsBuffer.init ps = ⟨⟨ps, false, 100⟩, [], []⟩ ∧
    (MetricsBuffer.addAll exporter MetricsBuffer.init (ps ++ [p])).exported = [ps ++ [p]] ∧
    (MetricsBuffer.addAll exporter MetricsBuffer.init (ps ++ [p])).state.data = [] ∧
    (∀ b : MetricsBuffer, b.data = [] → MetricsBuffer.flush exporter b = ⟨b, [], []⟩) := by
  have h1 : MetricsBuffer.addAll exporter MetricsBuffer.init ps = ⟨⟨ps, false, 100⟩, [], []⟩ := by
    have := addAll_below_threshold exporter ps MetricsBuffer.init rfl
      (by simp [MetricsBuffer.init, h99])
    simpa [MetricsBuffer.init] using this
  have hfull : MetricsBuffer.add exporter ⟨ps, false, 100⟩ p =
      MetricsBuffer.flush exporter ⟨ps ++ [p], false, 100⟩ := by
    unfold MetricsBuffer.add
    rw [if_neg (by simp)]
    rw [if_pos (by simp [h99])]
  have hne : (ps ++ [p]) ≠ [] := by simp
  have hflush := flush_nonempty exporter ⟨ps ++ [p], false, 100⟩ hne
  have h2 : MetricsBuffer.addAll exporter MetricsBuffer.init (ps ++ [p]) =
      ⟨(MetricsBuffer.flush exporter ⟨ps ++ [p], false, 100⟩).state,
        (MetricsBuffer.flush exporter ⟨ps ++ [p], false, 100⟩).exported,
        (MetricsBuffer.flush exporter ⟨ps ++ [p], false, 100⟩).logs⟩ := by
    rw [addAll_append exporter ps [p] MetricsBuffer.init, h1]
    simp only [MetricsBuffer.addAll, hfull, List.nil_append, List.append_nil]
  refine ⟨h1, ?_, ?_, fun b hb => flush_empty exporter b hb⟩
  · rw [h2]
    exact hflush.2
  · rw [h2]
    rw [hflush.1]

theorem buffer_flushes_at_max_size_witness :
    (List.replicate 99 (⟨"m", [], 1, 0, "counter"⟩ : MetricDataPoint)).length = 99 ∧
    (MetricsBuffer.addAll (fun _ => Except.ok ()) MetricsBuffer.init
        (List.replicate 99 ⟨"m", [], 1, 0, "counter"⟩)).exported = [] ∧
    (MetricsBuffer.addAll (fun _ => Except.ok ()) MetricsBuffer.init
        (List.replicate 99 ⟨"m", [], 1, 0, "counter"⟩ ++ [⟨"m", [], 1, 0, "counter"⟩])).exported =
      [List.replicate 99 ⟨"m", [], 1, 0, "counter"⟩ ++ [⟨"m", [], 1, 0, "counter"⟩]] := by
  have h := buffer_flushes_at_max_size (fun _ => Except.ok ())
    (List.replicate 99 ⟨"m", [], 1, 0, "counter"⟩) ⟨"m", [], 1, 0, "counter"⟩ (by simp)
  exact ⟨by simp, by rw [h.1], h.2.1⟩

/-- C3: once `shutdown()` has run, every later `add` is silently dropped
(state unchanged, nothing exported, nothing logged); and `shutdown()`
after `n < max_size` adds on a fresh buffer hands exactly those `n` points
to the exporter exactly once, in its single final flush. -/
theorem buffer_shutdown_semantics
    (exporter : List MetricDataPoint → Except String Unit)
    (b : MetricsBuffer) (p : MetricDataPoint) (ps qs : List MetricDataPoint)
    (hs : b.shutdownFlag = true) (hlen : ps.length < 100) (hne : ps ≠ []) :
    MetricsBuffer.add exporter b p = ⟨b, [], []⟩ ∧
    (MetricsBuffer.addAll exporter MetricsBuffer.init ps).exported = [] ∧
    (MetricsBuffer.shutdown exporter
      (MetricsBuffer.addAll exporter MetricsBuffer.init ps).state).exported = [ps] ∧
    (MetricsBuffer.shutdown exporter
      (MetricsBuffer.addAll exporter MetricsBuffer.init ps).state).state = ⟨[], true, 100⟩ ∧
    MetricsBuffer.addAll exporter
      (MetricsBuffer.shutdown exporter
        (MetricsBuffer.addAll exporter MetricsBuffer.init ps).state).state qs =
      ⟨⟨[], true, 100⟩, [], []⟩ := by
  have hadd : MetricsBuffer.add exporter b p = ⟨b, [], []⟩ := by
    unfold MetricsBuffer.add
    rw [if_pos hs]
  have h1 : MetricsBuffer.addAll exporter MetricsBuffer.init ps = ⟨⟨ps, false, 100⟩, [], []⟩ := by
    have := addAll_below_threshold exporter ps MetricsBuffer.init rfl
      (by simpa [MetricsBuffer.init] using hlen)
    simpa [MetricsBuffer.init] using this
  have hflush := flush_nonempty exporter ⟨ps, true, 100⟩ hne
  have hsd : MetricsBuffer.shutdown exporter ⟨ps, false, 100⟩ =
      MetricsBuffer.flush exporter ⟨ps, true, 100⟩ := rfl
  refine ⟨hadd, by rw [h1], ?_, ?_, ?_⟩
  · rw [h1]
    simp only [hsd]
    exact hflush.2
  · rw [h1]
    simp only [hsd]
    exact hflush.1
  · rw [h1]
    simp only [hsd]
    rw [hflush.1]
    exact addAll_shutdown exporter _ rfl qs

theorem buffer_shutdown_semantics_witness :
    ((⟨[], true, 100⟩ : MetricsBuffer).shutdownFlag = true ∧
      (List.replicate 5 (⟨"m", [], 1, 0, "counter"⟩ : MetricDataPoint)).length < 100 ∧
      List.replicate 5 (⟨"m", [], 1, 0, "counter"⟩ : MetricDataPoint) ≠ []) ∧
    (MetricsBuffer.shutdown (fun _ => Except.ok ())
      (MetricsBuffer.addAll (fun _ => Except.ok ()) MetricsBuffer.init
        (List.replicate 5 ⟨"m", [], 1, 0, "counter"⟩)).state).exported =
      [List.replicate 5 ⟨"m", [], 1, 0, "counter"⟩] := by
  have h := buffer_shutdown_semantics (fun _ => Except.ok ()) ⟨[], true, 100⟩
    ⟨"m", [], 1, 0, "counter"⟩ (List.replicate 5 ⟨"m", [], 1, 0, "counter"⟩) []
    rfl (by simp) (by simp)
  exact ⟨⟨rfl, by simp, by simp⟩, h.2.2.1⟩

/-- C5: when the exporter raises on a batch, the flush catches the
exception (the operation still returns a state and a log instead of
propagating), logs it, and permanently drops the batch: the buffer is left
empty, the batch was attempted exactly once, and a subsequent flush
attempts nothing. -/
theorem export_failure_contained
    (exporter : List MetricDataPoint → Except String Unit)
    (b : MetricsBuffer) (msg : String)
    (hne : b.data ≠ []) (herr : exporter b.data = Except.error msg) :
    MetricsBuffer.flush exporter b =
      ⟨⟨[], b.shutdownFlag, b.max_size⟩, [b.data], ["Failed to export metrics: " ++ msg]⟩ ∧
    MetricsBuffer.flush exporter (MetricsBuffer.flush exporter b).state =
      ⟨⟨[], b.shutdownFlag, b.max_size⟩, [], []⟩ := by
  have h1 : MetricsBuffer.flush exporter b =
      ⟨⟨[], b.shutdownFlag, b.max_size⟩, [b.data], ["Failed to export metrics: " ++ msg]⟩ := by
    unfold MetricsBuffer.flush
    rw [if_neg (by simp [hne]), herr]
  refine ⟨h1, ?_⟩
  rw [h1]
  exact flush_empty exporter _ rfl

theorem export_failure_contained_witness :
    ((⟨[⟨"m", [], 1, 0, "counter"⟩], false, 100⟩ : MetricsBuffer).data ≠ [] ∧
      (fun _ : List MetricDataPoint => (Except.error "boom" : Except String Unit))
        (⟨[⟨"m", [], 1, 0, "counter"⟩], false, 100⟩ : MetricsBuffer).data =
        Except.error "boom") ∧
    MetricsBuffer.flush (fun _ => Except.error "boom")
        (⟨[⟨"m", [], 1, 0, "counter"⟩], false, 100⟩ : MetricsBuffer) =
      ⟨⟨[], false, 100⟩, [[⟨"m", [], 1, 0, "counter"⟩]],
        ["Failed to export metrics: " ++ "boom"]⟩ :=
  ⟨⟨by simp, rfl⟩,
    (export_failure_contained (fun _ => Except.error "boom")
      ⟨[⟨"m", [], 1, 0, "counter"⟩], false, 100⟩ "boom" (by simp) rfl).1⟩

lemma lookup_append_single {α : Type} (m : List (String × α)) (k : String) (v : α)
    (h : List.lookup k m = none) : List.lookup k (m ++ [(k, v)]) = some v := by
  induction m with
  | nil => simp [List.lookup]
  | cons kv m ih =>
    obtain ⟨k₁, v₁⟩ := kv
    rw [List.lookup] at h
    rw [List.cons_append, List.lookup]
    by_cases hk : k = k₁
    · subst hk
      rw [beq_self_eq_true] at h
      exact Option.noConfusion h
    · rw [beq_eq_false_iff_ne.mpr hk] at h ⊢
      exact ih h

/-- C8: for each instrument kind, two get-or-create calls with the same
name and tag mappings that are permutations of each other return the very
instrument value stored in the registry map (the second call returns the
first call's instrument and leaves the registry untouched), and the first
call grows its map by at most one entry. -/
theorem registry_get_or_create_idempotent (r : MetricsRegistry) (name : String)
    (t₁ t₂ : List (String × String)) (h : t₁.Perm t₂) :
    (((r.counter name t₁).2.counter name t₂).1 = (r.counter name t₁).1 ∧
      ((r.counter name t₁).2.counter name t₂).2 = (r.counter name t₁).2 ∧
      (r.counter name t₁).2.counters.length ≤ r.counters.length + 1) ∧
    (((r.gauge name t₁).2.gauge name t₂).1 = (r.gauge name t₁).1 ∧
      ((r.gauge name t₁).2.gauge name t₂).2 = (r.gauge name t₁).2 ∧
      (r.gauge name t₁).2.gauges.length ≤ r.gauges.length + 1) ∧
    (((r.histogram name t₁).2.histogram name t₂).1 = (r.histogram name t₁).1 ∧
      ((r.histogram name t₁).2.histogram name t₂).2 = (r.histogram name t₁).2 ∧
      (r.histogram name t₁).2.histograms.length ≤ r.histograms.length + 1) := by
  have hkey : metric_key name t₂ = metric_key name t₁ := (metric_key_perm name h).symm
  refine ⟨?_, ?_, ?_⟩
  · unfold MetricsRegistry.counter
    rw [hkey]
    cases hl : List.lookup (metric_key name t₁) r.counters with
    | some c => simp [hl]
    | none => simp [hl, lookup_append_single _ _ _ hl]
  · unfold MetricsRegistry.gauge
    rw [hkey]
    cases hl : List.lookup (metric_key name t₁) r.gauges with
    | some g => simp [hl]
    | none => simp [hl, lookup_append_single _ _ _ hl]
  · unfold MetricsRegistry.histogram
    rw [hkey]
    cases hl : List.lookup (metric_key name t₁) r.histograms with
    | some g => simp [hl]
    | none => simp [hl, lookup_append_single _ _ _ hl]

theorem registry_get_or_create_idempotent_witness :
    ([("a", "1"), ("b", "2")] : List (String × String)).Perm [("b", "2"), ("a", "1")] ∧
    (((MetricsRegistry.counter ⟨[], [], []⟩ "req" [("a", "1"), ("b", "2")]).2.counter
        "req" [("b", "2"), ("a", "1")]).1 =
      (MetricsRegistry.counter ⟨[], [], []⟩ "req" [("a", "1"), ("b", "2")]).1) :=
  ⟨by decide,
    (registry_get_or_create_idempotent ⟨[], [], []⟩ "req"
      [("a", "1"), ("b", "2")] [("b", "2"), ("a", "1")] (by decide)).1.1⟩

lemma addToGroups_keys_sub {κ α : Type} [DecidableEq κ] (k : κ) (p : α) :
    ∀ (acc : List (κ × List α)) (x : κ), x ∈ (addToGroups k p acc).map Prod.fst →
      x = k ∨ x ∈ acc.map Prod.fst := by
  intro acc
  induction acc with
  | nil =>
    intro x hx
    simp [addToGroups] at hx
    exact Or.inl hx
  | cons y rest ih =>
    intro x hx
    obtain ⟨k', l⟩ := y
    simp only [addToGroups] at hx
    by_cases hk : k' = k
    · rw [if_pos hk] at hx
      simp at hx
      rcases hx with h | h
      · exact Or.inr (by simp [h])
      · exact Or.inr (by simp [h])
    · rw [if_neg hk] at hx
      simp at hx
      rcases hx with h | h
      · exact Or.inr (by simp [h])
      · rcases ih x (by simpa using h) with h' | h'
        · exact Or.inl h'
        · exact Or.inr (by simp [h'])

lemma addToGroups_map_comm {κ κ' α : Type} [DecidableEq κ] [DecidableEq κ']
    (g : κ → κ') (k : κ) (p : α) :
    ∀ (acc : List (κ × List α)),
    (∀ x ∈ acc, (g x.1 = g k ↔ x.1 = k)) →
    addToGroups (g k) p (acc.map (fun x => (g x.1, x.2))) =
      (addToGroups k p acc).map (fun x => (g x.1, x.2)) := by
  intro acc
  induction acc with
  | nil => intro _; rfl
  | cons y rest ih =>
    intro h
    obtain ⟨k', l⟩ := y
    simp only [List.map_cons, addToGroups]
    by_cases hk : k' = k
    · rw [if_pos ((h ⟨k', l⟩ (by simp)).mpr hk), if_pos hk]
      simp
    · rw [if_neg (fun hg => hk ((h ⟨k', l⟩ (by simp)).mp hg)), if_neg hk]
      simp only [List.map_cons]
      rw [ih (fun x hx => h x (by simp [hx]))]

lemma groupBy_foldl_map_comm {κ κ' α : Type} [DecidableEq κ] [DecidableEq κ']
    (f : α → κ) (g : κ → κ') :
    ∀ (l : List α) (acc : List (κ × List α)),
    (∀ k₁ k₂, (k₁ ∈ acc.map Prod.fst ∨ k₁ ∈ l.map f) →
      (k₂ ∈ acc.map Prod.fst ∨ k₂ ∈ l.map f) → g k₁ = g k₂ → k₁ = k₂) →
    l.foldl (fun a q => addToGroups (g (f q)) q a) (acc.map (fun x => (g x.1, x.2))) =
      (l.foldl (fun a q => addToGroups (f q) q a) acc).map (fun x => (g x.1, x.2)) := by
  intro l
  induction l with
  | nil => intro acc _; rfl
  | cons p rest ih =>
    intro acc hinj
    have hiff : ∀ x ∈ acc, (g x.1 = g (f p) ↔ x.1 = f p) := by
      intro x hx
      constructor
      · intro hg
        exact hinj x.1 (f p) (Or.inl (List.mem_map_of_mem Prod.fst hx))
          (Or.inr (by simp)) hg
      · intro he
        rw [he]
    simp only [List.foldl_cons]
    rw [addToGroups_map_comm g (f p) p acc hiff]
    apply ih
    intro k₁ k₂ h₁ h₂
    apply hinj
    · rcases h₁ with h | h
      · rcases addToGroups_keys_sub (f p) p acc k₁ h with h' | h'
        · exact Or.inr (by simp [h'])
        · exact Or.inl h'
      · exact Or.inr (by simp; exact Or.inr (by simpa using h))
    · rcases h₂ with h | h
      · rcases addToGroups_keys_sub (f p) p acc k₂ h with h' | h'
        · exact Or.inr (by simp [h'])
        · exact Or.inl h'
      · exact Or.inr (by simp; exact Or.inr (by simpa using h))

lemma groupBy_comp_of_inj {κ κ' α : Type} [DecidableEq κ] [DecidableEq κ']
    (f : α → κ) (g : κ → κ') (l : List α)
    (hinj : ∀ k₁ ∈ l.map f, ∀ k₂ ∈ l.map f, g k₁ = g k₂ → k₁ = k₂) :
    groupBy (fun a => g (f a)) l = (groupBy f l).map (fun x => (g x.1, x.2)) := by
  have h := groupBy_foldl_map_comm f g l []
    (by
      intro k₁ k₂ h₁ h₂ hg
      rcases h₁ with h₁ | h₁
      · simp at h₁
      · rcases h₂ with h₂ | h₂
        · simp at h₂
        · exact hinj k₁ h₁ k₂ h₂ hg)
  simpa [groupBy] using h

lemma groupBy_keys_sub {κ α : Type} [DecidableEq κ] (f : α → κ) :
    ∀ (l : List α) (acc : List (κ × List α)) (x : κ),
    x ∈ ((l.foldl (fun a q => addToGroups (f q) q a) acc).map Prod.fst) →
    x ∈ acc.map Prod.fst ∨ x ∈ l.map f := by
  intro l
  induction l with
  | nil =>
    intro acc x hx
    exact Or.inl hx
  | cons p rest ih =>
    intro acc x hx
    rcases ih (addToGroups (f p) p acc) x hx with h | h
    · rcases addToGroups_keys_sub (f p) p acc x h with h' | h'
      · exact Or.inr (by simp [h'])
      · exact Or.inl h'
    · exact Or.inr (by simp; exact Or.inr (by simpa using h))

lemma splitColon1_append : ∀ (n t : List Char), ':' ∉ n →
    splitColon1 (n ++ ':' :: t) = (n, t) := by
  intro n
  induction n with
  | nil =>
    intro t _
    simp [splitColon1]
  | cons c cs ih =>
    intro t hc
    have hne : c ≠ ':' := by
      intro he
      exact hc (by simp [he])
    have hrec := ih t (fun hm => hc (by simp [hm]))
    simp only [List.cons_append, splitColon1, List.append_eq]
    rw [if_neg (by simpa using hne), hrec]

lemma keySplit_join (n t : String) (hn : ':' ∉ n.data) :
    keySplit (n ++ ":" ++ t) = (n, t) := by
  have hdata : (n ++ ":" ++ t).data = n.data ++ ':' :: t.data := by
    simp [String.data_append]
  unfold keySplit
  rw [hdata, splitColon1_append n.data t.data hn]

lemma joinKey_inj (n₁ t₁ n₂ t₂ : String)
    (h₁ : ':' ∉ n₁.data) (h₂ : ':' ∉ n₂.data)
    (h : n₁ ++ ":" ++ t₁ = n₂ ++ ":" ++ t₂) : n₁ = n₂ ∧ t₁ = t₂ := by
  have := congrArg keySplit h
  rw [keySplit_join n₁ t₁ h₁, keySplit_join n₂ t₂ h₂] at this
  exact ⟨congrArg Prod.fst this, congrArg Prod.snd this⟩

/-- C1 counterexample: one Counter point whose metric name contains a
colon.  The group key `"a:b:counter"` is split back at its *first* colon,
so the emitted metric is named `"a"` (not `"a:b"`) and, its recovered type
being `"b:counter"`, it is encoded under `gauge` instead of `sum`. -/
theorem to_otlp_counterexample :
    (MetricsExporter.to_otlp "svc" [⟨"a:b", [], 3, 0, "counter"⟩]).metrics =
      [⟨"a", OtlpAgg.gauge [toOtlpDataPoint ⟨"a:b", [], 3, 0, "counter"⟩]⟩] ∧
    ("a" : String) ≠ "a:b" :=
  ⟨rfl, by decide⟩

/-- C1 (amended): for every non-empty list of data points *whose names
contain no colon*, the payload groups the points by `(name, kind)` in
first-occurrence order and emits exactly one metric entry per group, named
by the group's metric name; counter groups are encoded as `sum` with
`aggregationTemporality = 2` and `isMonotonic = true`, all other groups as
`gauge`; each per-point entry carries the tag map as `{key, stringValue}`
attributes, the truncated nanosecond timestamp string, and the value as
`asDouble` (all per `metricOfGroup`/`toOtlpDataPoint`); the payload wraps
the metrics in one resource carrying the service name and one scope named
"tracekit". -/
theorem to_otlp_encoding (service_name : String) (dps : List MetricDataPoint)
    (_hne : dps ≠ []) (hcolon : ∀ p ∈ dps, ':' ∉ p.name.data) :
    (MetricsExporter.to_otlp service_name dps).metrics =
      (groupBy (fun dp => (dp.name, dp.metric_type)) dps).map
        (fun gr => metricOfGroup gr.1 gr.2) ∧
    (MetricsExporter.to_otlp service_name dps).serviceName = service_name ∧
    (MetricsExporter.to_otlp service_name dps).scopeName = "tracekit" := by
  refine ⟨?_, rfl, rfl⟩
  have hinj : ∀ k₁ ∈ dps.map (fun dp => (dp.name, dp.metric_type)),
      ∀ k₂ ∈ dps.map (fun dp => (dp.name, dp.metric_type)),
      k₁.1 ++ ":" ++ k₁.2 = k₂.1 ++ ":" ++ k₂.2 → k₁ = k₂ := by
    intro k₁ h₁ k₂ h₂ hjoin
    obtain ⟨dp₁, hdp₁, he₁⟩ := List.mem_map.mp h₁
    obtain ⟨dp₂, hdp₂, he₂⟩ := List.mem_map.mp h₂
    have hc₁ : ':' ∉ k₁.1.data := by rw [← he₁]; exact hcolon dp₁ hdp₁
    have hc₂ : ':' ∉ k₂.1.data := by rw [← he₂]; exact hcolon dp₂ hdp₂
    obtain ⟨hn, ht⟩ := joinKey_inj k₁.1 k₁.2 k₂.1 k₂.2 hc₁ hc₂ hjoin
    exact Prod.ext hn ht
  have hgrouped : groupBy (fun dp => dp.name ++ ":" ++ dp.metric_type) dps =
      (groupBy (fun dp => (dp.name, dp.metric_type)) dps).map
        (fun x => (x.1.1 ++ ":" ++ x.1.2, x.2)) :=
    groupBy_comp_of_inj (fun dp => (dp.name, dp.metric_type))
      (fun nt => nt.1 ++ ":" ++ nt.2) dps hinj
  have hmetrics : (MetricsExporter.to_otlp service_name dps).metrics =
      (groupBy (fun dp => dp.name ++ ":" ++ dp.metric_type) dps).map (fun g =>
        if (keySplit g.1).2 = "counter" then
          ⟨(keySplit g.1).1, OtlpAgg.sum (g.2.map toOtlpDataPoint) 2 true⟩
        else
          ⟨(keySplit g.1).1, OtlpAgg.gauge (g.2.map toOtlpDataPoint)⟩) := rfl
  rw [hmetrics, hgrouped, List.map_map]
  apply List.map_congr_left
  intro pg hpg
  have hkeymem : pg.1 ∈ dps.map (fun dp => (dp.name, dp.metric_type)) := by
    have hmem : pg.1 ∈ (groupBy (fun dp => (dp.name, dp.metric_type)) dps).map Prod.fst :=
      List.mem_map_of_mem Prod.fst hpg
    rcases groupBy_keys_sub (fun dp => (dp.name, dp.metric_type)) dps [] pg.1
      (by simpa [groupBy] using hmem) with h | h
    · simp at h
    · exact h
  obtain ⟨dp, hdp, he⟩ := List.mem_map.mp hkeymem
  have hc : ':' ∉ pg.1.1.data := by rw [← he]; exact hcolon dp hdp
  simp only [Function.comp_apply]
  rw [keySplit_join pg.1.1 pg.1.2 hc]
  rfl

theorem to_otlp_encoding_witness :
    ([⟨"req", [], 1, 0, "counter"⟩, ⟨"mem", [], 2, 0, "gauge"⟩] : List MetricDataPoint) ≠ [] ∧
    (∀ p ∈ ([⟨"req", [], 1, 0, "counter"⟩, ⟨"mem", [], 2, 0, "gauge"⟩] : List MetricDataPoint),
      ':' ∉ p.name.data) ∧
    (MetricsExporter.to_otlp "svc"
        [⟨"req", [], 1, 0, "counter"⟩, ⟨"mem", [], 2, 0, "gauge"⟩]).metrics =
      (groupBy (fun dp => (dp.name, dp.metric_type))
          [⟨"req", [], 1, 0, "counter"⟩, ⟨"mem", [], 2, 0, "gauge"⟩]).map
        (fun gr => metricOfGroup gr.1 gr.2) :=
  ⟨by simp, by decide,
    (to_otlp_encoding "svc" [⟨"req", [], 1, 0, "counter"⟩, ⟨"mem", [], 2, 0, "gauge"⟩]
      (by simp) (by decide)).1⟩

end Tracekit
